import Mathlib

/-
Verification of the system-monitor repository.

The development shallowly embeds the Rust sources (src/lib.rs, src/args.rs,
src/run.rs, src/main.rs) into Lean 4.  Machine integers (u64) are modelled as
Nat.  A finite float is represented by the rational number it denotes, and the
special float values NaN and the infinities are represented explicitly by the
FloatVal type.  The decimal formatter of Rust (format with a fixed number of
decimal places) is modelled by rounding the exact value of the formatted
number half to even.

format_bytes is embedded twice:
- an exact arithmetic idealization (floorLog1000, decimalPlaces, renderFixed),
  in which the tier, the scaled value and the precision thresholds are
  computed on exact rationals; and
- an IEEE f64 pipeline (toF64, rnd53, places64, renderFixedRat,
  format_bytes_f64), which models the machine semantics of the source: the
  lossy u64 to f64 conversion, the correctly rounded double division, the
  threshold comparisons on the double, and the decimal formatting of the
  exact value of the double.  The unit tier is a parameter of this pipeline,
  because the source derives it from f64 log10, whose precision is
  implementation defined; theorems either hold for every tier or instantiate
  a tier that every faithful log10 implementation produces.
The two embeddings agree wherever the f64 computation is exact (all inputs
below 1000, and the concrete evaluation points used below); they differ at
f64 representation boundaries, which is what the C4 counterexample exhibits.
-/

namespace SystemMonitor

set_option maxRecDepth 16384

-- ## format_bytes (src/lib.rs, lines 112 to 133)

/-- The unit table of format_bytes: const UNITS of src/lib.rs line 113. -/
def UNITS : List String := ["B", "KB", "MB", "GB", "TB", "PB"]

/-- Fuel driven floor logarithm, base 1000.  Models the source expression
(bytes_f.log10() / 1000_f64.log10()).floor() (src/lib.rs line 120) with exact
arithmetic: for 1 ≤ n ≤ fuel the result is the greatest e with 1000 ^ e ≤ n. -/
def floorLog1000Aux : Nat → Nat → Nat
  | 0, _ => 0
  | fuel + 1, n => if n < 1000 then 0 else floorLog1000Aux fuel (n / 1000) + 1

/-- floor (log10 n / log10 1000) of src/lib.rs line 120, as exact arithmetic. -/
def floorLog1000 (n : Nat) : Nat := floorLog1000Aux n n

/-- The clamped unit tier: exponent.min(UNITS.len() - 1) of src/lib.rs line 121. -/
def byteTier (b : Nat) : Nat := min (floorLog1000 b) (UNITS.length - 1)

/-- Rounding of num / den to the nearest integer, ties to even: the rounding the
Rust fixed precision formatter applies to the value it prints. -/
def roundHalfEvenFrac (num den : Nat) : Nat :=
  if 2 * (num % den) < den then num / den
  else if den < 2 * (num % den) then num / den + 1
  else if num / den % 2 = 0 then num / den
  else num / den + 1

/-- Decimal digit string of n, left padded with zeros to width p. -/
def zeroPad (p n : Nat) : String :=
  String.mk (List.replicate (p - (Nat.repr n).length) '0') ++ Nat.repr n

/-- Fixed point rendering of num / den with p decimal places: the model of the
Rust formatter used at src/lib.rs lines 127 to 132 (and for percentages). -/
def renderFixed (num den p : Nat) : String :=
  if p = 0 then Nat.repr (roundHalfEvenFrac (num * 10 ^ p) den)
  else
    Nat.repr (roundHalfEvenFrac (num * 10 ^ p) den / 10 ^ p) ++ "." ++
      zeroPad p (roundHalfEvenFrac (num * 10 ^ p) den % 10 ^ p)

/-- The precision choice of src/lib.rs lines 126 to 131: the source compares the
scaled value num / den with 100.0 and 10.0; here the comparisons are carried out
exactly on the fraction. -/
def decimalPlaces (num den : Nat) : Nat :=
  if 100 * den ≤ num then 0 else if 10 * den ≤ num then 1 else 2

/-- format_bytes of src/lib.rs lines 112 to 133.  The unit lookup
UNITS[exponent] panics when out of bounds, which the embedding models by the
none result. -/
def format_bytes? (bytes : Nat) : Option String :=
  if bytes = 0 then some "0 B"
  else
    match UNITS.get? (byteTier bytes) with
    | none => none
    | some unit =>
        some (renderFixed bytes (1000 ^ byteTier bytes)
                (decimalPlaces bytes (1000 ^ byteTier bytes)) ++ " " ++ unit)

/-- format_bytes as a total function (the lookup never panics, see the C9
theorem below). -/
def format_bytes (bytes : Nat) : String := (format_bytes? bytes).getD ""

/-- The rational number denoted by the digits that format_bytes prints in front
of the unit (its numeric part). -/
def renderedValue (b : Nat) : Rat :=
  (roundHalfEvenFrac (b * 10 ^ decimalPlaces b (1000 ^ byteTier b))
      (1000 ^ byteTier b) : Rat) /
    10 ^ decimalPlaces b (1000 ^ byteTier b)

-- ## The IEEE f64 pipeline of format_bytes

/-- Binary digit count, fuel driven: for 1 ≤ n ≤ fuel the result L satisfies
2 ^ (L - 1) ≤ n < 2 ^ L. -/
def bitLenAux : Nat → Nat → Nat
  | 0, _ => 0
  | fuel + 1, n => if n = 0 then 0 else bitLenAux fuel (n / 2) + 1

/-- Number of binary digits of n. -/
def bitLen (n : Nat) : Nat := bitLenAux n n

/-- The conversion bytes as f64 of src/lib.rs line 119: a u64 is rounded to
the nearest value with a 53 bit significand, ties to even (the IEEE round to
nearest even rule of the Rust as cast). -/
def toF64 (n : Nat) : Nat :=
  if n ≤ 2 ^ 53 then n
  else roundHalfEvenFrac n (2 ^ (bitLen n - 53)) * 2 ^ (bitLen n - 53)

/-- Round to nearest integer, ties to even, of a rational: the rounding the
Rust fixed precision formatter applies to the exact value of the double it
prints (a double is a dyadic rational, so the formatter sees this exact
value). -/
def roundHE (q : Rat) : Int :=
  if q - ⌊q⌋ < 1 / 2 then ⌊q⌋
  else if 1 / 2 < q - ⌊q⌋ then ⌊q⌋ + 1
  else if ⌊q⌋ % 2 = 0 then ⌊q⌋
  else ⌊q⌋ + 1

/-- Binary exponent of the IEEE rounding grid for the quotient num / den: the
scale 2 ^ 100 accommodates quotients below one (every quotient rounded in this
file is far above 2 ^ (-100), so the grid position is always correct). -/
def rnd53Exp (num den : Nat) : Nat := bitLen (num * 2 ^ 100 / den)

/-- Integer significand of the IEEE double nearest to num / den. -/
def rnd53Num (num den : Nat) : Nat :=
  roundHalfEvenFrac (num * 2 ^ 100 * 2 ^ 53) (den * 2 ^ rnd53Exp num den)

/-- The IEEE double nearest to num / den (53 significant bits, round to
nearest, ties to even): the correctly rounded result of the f64 division at
src/lib.rs line 123, as the exact dyadic rational the double denotes. -/
def rnd53 (num den : Nat) : Rat :=
  (rnd53Num num den : Rat) * 2 ^ rnd53Exp num den / 2 ^ 153

/-- The f64 scaled value format_bytes holds under unit tier e: the double
nearest to (bytes as f64) / 1000f64.powi(e) — the power is exactly
representable for every tier, so the only roundings are the conversion and
the division. -/
def vF (b e : Nat) : Rat := rnd53 (toF64 b) (1000 ^ e)

/-- The precision choice of src/lib.rs lines 126 to 131 as the program makes
it: the comparisons with 100.0 and 10.0 are applied to the f64 value (float
comparison with these exactly representable constants is exact). -/
def places64 (v : Rat) : Nat :=
  if 100 ≤ v then 0 else if 10 ≤ v then 1 else 2

/-- The Rust fixed precision formatter applied to the exact value of a
nonnegative double. -/
def renderFixedRat (v : Rat) (p : Nat) : String :=
  if p = 0 then Nat.repr (roundHE (v * 10 ^ p)).toNat
  else
    Nat.repr ((roundHE (v * 10 ^ p)).toNat / 10 ^ p) ++ "." ++
      zeroPad p ((roundHE (v * 10 ^ p)).toNat % 10 ^ p)

/-- format_bytes of src/lib.rs lines 112 to 133 under IEEE f64 semantics.
The unit tier e is a parameter: the source computes it as
(bytes_f.log10() / 1000_f64.log10()).floor() clamped by .min(UNITS.len() - 1),
and the precision of f64 log10 is implementation defined, so the sources do
not determine the tier at inputs where the quotient lies within rounding
distance of an integer.  Every IEEE determined step (conversion, division,
threshold comparisons, decimal formatting) is modelled exactly. -/
def format_bytes_f64? (bytes e : Nat) : Option String :=
  if bytes = 0 then some "0 B"
  else
    match UNITS.get? e with
    | none => none
    | some unit =>
        some (renderFixedRat (vF bytes e) (places64 (vF bytes e)) ++ " " ++ unit)

/-- format_bytes_f64? as a total function. -/
def format_bytes_f64 (bytes e : Nat) : String := (format_bytes_f64? bytes e).getD ""

/-- The rational denoted by the digits format_bytes prints in front of the
unit under IEEE f64 semantics and unit tier e.  vF is nonnegative, so this
integer division matches the digit string renderFixedRat prints. -/
def printedValue (b e : Nat) : Rat :=
  (roundHE (vF b e * 10 ^ places64 (vF b e)) : Rat) / 10 ^ places64 (vF b e)

-- ## Floating point values and percentage formatting

/-- A floating point value of the source (f32 or f64): a finite value is
modelled by the exact rational it denotes; NaN and the infinities are explicit
constructors. -/
inductive FloatVal where
  | finite (q : Rat)
  | nan
  | inf
  | neginf
deriving DecidableEq

/-- The Rust formatter with one decimal place applied to a float: NaN and the
infinities print as NaN, inf and -inf; a finite value prints sign and magnitude
rounded to one decimal. -/
def renderFloat1 : FloatVal → String
  | FloatVal.finite q =>
      (if q < 0 then "-" else "") ++ renderFixed q.num.natAbs q.den 1
  | FloatVal.nan => "NaN"
  | FloatVal.inf => "inf"
  | FloatVal.neginf => "-inf"

/-- format_percent of src/lib.rs lines 141 to 143. -/
def format_percent (value : FloatVal) : String := renderFloat1 value ++ "%"

/-- The f64 division (used / total) * 100.0 of src/lib.rs lines 86 to 89 with
the IEEE special cases of a zero divisor: 0.0 / 0.0 is NaN, x / 0.0 with x
positive is infinity; a nonzero divisor gives the exact finite quotient. -/
def memPercentVal (used total : Nat) : FloatVal :=
  if total = 0 then (if used = 0 then FloatVal.nan else FloatVal.inf)
  else FloatVal.finite (((used : Rat) / total) * 100)

-- ## MetricsSnapshot and FormattedMetrics (src/lib.rs lines 5 to 110)

/-- MetricsSnapshot of src/lib.rs lines 5 to 14. -/
structure MetricsSnapshot where
  cpu_usage_percent : FloatVal
  memory_used_bytes : Nat
  memory_total_bytes : Nat
  disk_read_bytes : Nat
  disk_write_bytes : Nat
  net_rx_bytes : Nat
  net_tx_bytes : Nat

/-- FormattedMetrics of src/lib.rs lines 68 to 77. -/
structure FormattedMetrics where
  cpu_usage : String
  memory_used : String
  memory_total : String
  memory_usage_percent : String
  disk_read : String
  disk_write : String
  net_rx : String
  net_tx : String
deriving DecidableEq

/-- MetricsSnapshot::format of src/lib.rs lines 80 to 95. -/
def MetricsSnapshot.format (s : MetricsSnapshot) : FormattedMetrics where
  cpu_usage := format_percent s.cpu_usage_percent
  memory_used := format_bytes s.memory_used_bytes
  memory_total := format_bytes s.memory_total_bytes
  memory_usage_percent :=
    format_percent (memPercentVal s.memory_used_bytes s.memory_total_bytes)
  disk_read := format_bytes s.disk_read_bytes
  disk_write := format_bytes s.disk_write_bytes
  net_rx := format_bytes s.net_rx_bytes
  net_tx := format_bytes s.net_tx_bytes

/-- The Debug rendering of a String field under the derived Debug instance:
the string between quotation marks. -/
def quoteDebug (s : String) : String := "\"" ++ s ++ "\""

/-- The derived Debug rendering of FormattedMetrics (derive(Debug) at
src/lib.rs line 67), as printed by the :? format specifier. -/
def FormattedMetrics.debugRepr (m : FormattedMetrics) : String :=
  "FormattedMetrics \x7b cpu_usage: " ++ quoteDebug m.cpu_usage ++
  ", memory_used: " ++ quoteDebug m.memory_used ++
  ", memory_total: " ++ quoteDebug m.memory_total ++
  ", memory_usage_percent: " ++ quoteDebug m.memory_usage_percent ++
  ", disk_read: " ++ quoteDebug m.disk_read ++
  ", disk_write: " ++ quoteDebug m.disk_write ++
  ", net_rx: " ++ quoteDebug m.net_rx ++
  ", net_tx: " ++ quoteDebug m.net_tx ++ " \x7d"

/-- The Display implementation for FormattedMetrics of src/lib.rs lines 97 to
109: header line and six metric lines, each ended by a newline. -/
def FormattedMetrics.displayRepr (m : FormattedMetrics) : String :=
  "System Metrics:\n" ++
  "  CPU Usage:       " ++ m.cpu_usage ++ "\n" ++
  "  Memory:          " ++ m.memory_used ++ " / " ++ m.memory_total ++
    " (" ++ m.memory_usage_percent ++ ")\n" ++
  "  Disk Read:       " ++ m.disk_read ++ "\n" ++
  "  Disk Write:      " ++ m.disk_write ++ "\n" ++
  "  Network RX:      " ++ m.net_rx ++ "\n" ++
  "  Network TX:      " ++ m.net_tx ++ "\n"

-- ## collect_metrics, print_once, CliArgs and run

/-- collect_metrics of src/lib.rs lines 17 to 65.  The ambient operating system
counters are an input of the embedding (the env parameter gives the snapshot
the two timed refreshes produce); the call blocks for the hardcoded
Duration::from_millis(5000) of line 28, returned as the first component. -/
def collect_metrics (env : MetricsSnapshot) : Nat × MetricsSnapshot :=
  (5000, env)

/-- print_once of src/lib.rs lines 167 to 171: println with the :? (Debug)
specifier applied to collect_metrics().format().  The result is the pair of the
blocking wait in milliseconds and the text written to standard output. -/
def print_once_trace (env : MetricsSnapshot) : Nat × String :=
  ((collect_metrics env).1,
    FormattedMetrics.debugRepr ((collect_metrics env).2.format) ++ "\n")

/-- The text print_once writes to standard output. -/
def print_once_output (env : MetricsSnapshot) : String := (print_once_trace env).2

/-- CliArgs of src/args.rs lines 16 to 28. -/
structure CliArgs where
  live : Bool
  log : Bool
  interval : Nat

/-- run of src/run.rs lines 6 to 14: print_once is called exactly when neither
the live nor the log flag is set; otherwise nothing is sampled or printed.
The result is what the process observably does: none when nothing is printed,
some (wait, text) for the one shot sample and print. -/
def run (env : MetricsSnapshot) (args : CliArgs) : Option (Nat × String) :=
  if !args.live && !args.log then some (print_once_trace env) else none

-- ## Helper predicates used to state the claims

/-- The string ends in a percent sign directly preceded by exactly one decimal
digit that follows a decimal point. -/
def oneDecimalDigitPercent (s : String) : Bool :=
  match s.data.reverse with
  | p :: d :: dot :: _ => p = '%' && d.isDigit && dot = '.'
  | _ => false

/-- A concrete snapshot: cpu 12.5 (the rational 25 over 2), memory 500 of 1000
bytes, idle disk and network counters. -/
def sampleSnapshot : MetricsSnapshot :=
  { cpu_usage_percent := FloatVal.finite ⟨25, 2, by norm_num, by norm_num⟩
    memory_used_bytes := 500
    memory_total_bytes := 1000
    disk_read_bytes := 0
    disk_write_bytes := 0
    net_rx_bytes := 0
    net_tx_bytes := 0 }

/-- A snapshot whose total memory counter is zero. -/
def zeroTotalSnapshot : MetricsSnapshot :=
  { cpu_usage_percent := FloatVal.finite 0
    memory_used_bytes := 0
    memory_total_bytes := 0
    disk_read_bytes := 0
    disk_write_bytes := 0
    net_rx_bytes := 0
    net_tx_bytes := 0 }

/-- A snapshot with zero total memory but nonzero used memory. -/
def zeroTotalUsedSnapshot : MetricsSnapshot :=
  { cpu_usage_percent := FloatVal.finite 0
    memory_used_bytes := 1
    memory_total_bytes := 0
    disk_read_bytes := 0
    disk_write_bytes := 0
    net_rx_bytes := 0
    net_tx_bytes := 0 }

-- ## Helper lemmas

theorem byteTier_eq (b : Nat) : byteTier b = min (floorLog1000 b) 5 := rfl

theorem UNITS_get?_eq (e : Nat) (h : e ≤ 5) :
    UNITS.get? e = some (UNITS.getD e "") := by
  interval_cases e <;> rfl

theorem roundHEF_mono {den : Nat} (_hden : 0 < den) {n1 n2 : Nat} (h : n1 ≤ n2) :
    roundHalfEvenFrac n1 den ≤ roundHalfEvenFrac n2 den := by
  unfold roundHalfEvenFrac
  have hq : n1 / den ≤ n2 / den := Nat.div_le_div_right h
  rcases Nat.lt_or_ge (n1 / den) (n2 / den) with hqlt | hqge
  · by_cases a1 : 2 * (n1 % den) < den <;> by_cases a2 : den < 2 * (n1 % den) <;>
      by_cases a3 : n1 / den % 2 = 0 <;>
      by_cases b1 : 2 * (n2 % den) < den <;> by_cases b2 : den < 2 * (n2 % den) <;>
      by_cases b3 : n2 / den % 2 = 0 <;>
      simp only [a1, a2, a3, b1, b2, b3, if_true, if_false, if_pos, if_neg,
        not_false_iff, not_true] <;>
      omega
  · have hqeq : n1 / den = n2 / den := le_antisymm hq hqge
    have hr : n1 % den ≤ n2 % den := by
      have e1 := Nat.div_add_mod n1 den
      have e2 := Nat.div_add_mod n2 den
      rw [hqeq] at e1
      omega
    rw [hqeq]
    by_cases a1 : 2 * (n1 % den) < den <;> by_cases a2 : den < 2 * (n1 % den) <;>
      by_cases b1 : 2 * (n2 % den) < den <;> by_cases b2 : den < 2 * (n2 % den) <;>
      by_cases c1 : n2 / den % 2 = 0 <;>
      simp only [a1, a2, b1, b2, c1, if_true, if_false, if_pos, if_neg,
        not_false_iff, not_true] <;>
      omega

theorem roundHEF_le {den n M : Nat} (hden : 0 < den) (h : n < M * den) :
    roundHalfEvenFrac n den ≤ M := by
  unfold roundHalfEvenFrac
  have hq : n / den < M := (Nat.div_lt_iff_lt_mul hden).mpr h
  by_cases a1 : 2 * (n % den) < den <;> by_cases a2 : den < 2 * (n % den) <;>
    by_cases a3 : n / den % 2 = 0 <;>
    simp only [a1, a2, a3, if_true, if_false, if_pos, if_neg,
      not_false_iff, not_true] <;>
    omega

theorem roundHEF_ge {den n M : Nat} (hden : 0 < den) (h : M * den ≤ n) :
    M ≤ roundHalfEvenFrac n den := by
  unfold roundHalfEvenFrac
  have hq : M ≤ n / den := (Nat.le_div_iff_mul_le hden).mpr h
  by_cases a1 : 2 * (n % den) < den <;> by_cases a2 : den < 2 * (n % den) <;>
    by_cases a3 : n / den % 2 = 0 <;>
    simp only [a1, a2, a3, if_true, if_false, if_pos, if_neg,
      not_false_iff, not_true] <;>
    omega

theorem roundHEF_den_one (n : Nat) : roundHalfEvenFrac n 1 = n := by
  unfold roundHalfEvenFrac
  rw [Nat.mod_one, Nat.div_one]
  norm_num

theorem roundHEF_bounds {den n : Nat} (hden : 0 < den) :
    2 * n ≤ 2 * roundHalfEvenFrac n den * den + den ∧
    2 * roundHalfEvenFrac n den * den ≤ 2 * n + den := by
  unfold roundHalfEvenFrac
  have e1 : den * (n / den) + n % den = n := Nat.div_add_mod n den
  have m1 : n % den < den := Nat.mod_lt _ hden
  generalize hq : n / den = q at *
  generalize hr : n % den = r at *
  by_cases a1 : 2 * r < den <;> by_cases a2 : den < 2 * r <;>
    by_cases a3 : q % 2 = 0 <;>
    simp only [a1, a2, a3, if_true, if_false, if_pos, if_neg,
      not_false_iff, not_true] <;>
    constructor <;> nlinarith [e1, m1]

theorem bitLenAux_zero (fuel : Nat) : bitLenAux fuel 0 = 0 := by
  cases fuel <;> simp [bitLenAux]

theorem bitLenAux_spec :
    ∀ fuel n : Nat, 1 ≤ n → n ≤ fuel →
      2 ^ bitLenAux fuel n ≤ 2 * n ∧ n < 2 ^ bitLenAux fuel n := by
  intro fuel
  induction fuel with
  | zero => intro n h1 h2; omega
  | succ fuel ih =>
    intro n h1 h2
    simp only [bitLenAux]
    rw [if_neg (by omega)]
    by_cases h0 : n / 2 = 0
    · have hn1 : n = 1 := by omega
      subst hn1
      norm_num [bitLenAux_zero]
    · have hge : 1 ≤ n / 2 := by omega
      have hlt : n / 2 < n := Nat.div_lt_self (by omega) (by norm_num)
      have hle : n / 2 ≤ fuel := by omega
      obtain ⟨hA, hB⟩ := ih (n / 2) hge hle
      have e1 := Nat.div_add_mod n 2
      have hm : n % 2 < 2 := Nat.mod_lt _ (by norm_num)
      have hp : (2 : Nat) ^ (bitLenAux fuel (n / 2) + 1) =
          2 * 2 ^ bitLenAux fuel (n / 2) := by ring
      rw [hp]
      omega

theorem bitLen_spec (n : Nat) (hn : 1 ≤ n) :
    2 ^ bitLen n ≤ 2 * n ∧ n < 2 ^ bitLen n :=
  bitLenAux_spec n n hn le_rfl

theorem bitLen_mono {n1 n2 : Nat} (h : n1 ≤ n2) : bitLen n1 ≤ bitLen n2 := by
  by_cases h1 : n1 = 0
  · subst h1
    simp [bitLen, bitLenAux_zero]
  · have hs1 := bitLen_spec n1 (by omega)
    have hs2 := bitLen_spec n2 (by omega)
    by_contra hc
    push_neg at hc
    have hpow : (2 : Nat) ^ (bitLen n2 + 1) ≤ 2 ^ bitLen n1 :=
      Nat.pow_le_pow_right (by norm_num) (by omega)
    have h2 : (2 : Nat) ^ (bitLen n2 + 1) = 2 * 2 ^ bitLen n2 := by ring
    omega

theorem roundHE_bounds (q : Rat) : ⌊q⌋ ≤ roundHE q ∧ roundHE q ≤ ⌊q⌋ + 1 := by
  unfold roundHE
  by_cases a1 : q - ⌊q⌋ < 1 / 2 <;> by_cases a2 : (1 : Rat) / 2 < q - ⌊q⌋ <;>
    by_cases a3 : ⌊q⌋ % 2 = 0 <;>
    simp only [a1, a2, a3, if_true, if_false, if_pos, if_neg,
      not_false_iff, not_true] <;>
    omega

theorem roundHE_mono {q1 q2 : Rat} (h : q1 ≤ q2) : roundHE q1 ≤ roundHE q2 := by
  have hf : ⌊q1⌋ ≤ ⌊q2⌋ := Int.floor_le_floor h
  rcases lt_or_eq_of_le hf with hlt | heq
  · have b1 := roundHE_bounds q1
    have b2 := roundHE_bounds q2
    omega
  · unfold roundHE
    rw [← heq]
    have hfr : q1 - ⌊q1⌋ ≤ q2 - ⌊q1⌋ := by linarith
    by_cases a1 : q1 - ⌊q1⌋ < 1 / 2 <;> by_cases a2 : (1 : Rat) / 2 < q1 - ⌊q1⌋ <;>
      by_cases b1 : q2 - ⌊q1⌋ < 1 / 2 <;> by_cases b2 : (1 : Rat) / 2 < q2 - ⌊q1⌋ <;>
      by_cases c1 : ⌊q1⌋ % 2 = 0 <;>
      simp only [a1, a2, b1, b2, c1, if_true, if_false, if_pos, if_neg,
        not_false_iff, not_true] <;>
      first
        | omega
        | (exfalso; linarith)

theorem roundHE_le {q : Rat} {M : Int} (h : q < (M : Rat)) : roundHE q ≤ M := by
  have hb := roundHE_bounds q
  have hf : ⌊q⌋ < M := Int.floor_lt.mpr h
  omega

theorem roundHE_ge {q : Rat} {M : Int} (h : (M : Rat) ≤ q) : M ≤ roundHE q := by
  have hb := roundHE_bounds q
  have hf : M ≤ ⌊q⌋ := Int.le_floor.mpr h
  omega

theorem bitLen_ge_54 {b : Nat} (h : 2 ^ 53 < b) : 54 ≤ bitLen b := by
  by_contra hc
  push_neg at hc
  have hs := bitLen_spec b (by omega)
  have hp : (2 : Nat) ^ bitLen b ≤ 2 ^ 53 :=
    Nat.pow_le_pow_right (by norm_num) (by omega)
  omega

theorem toF64_of_gt {b : Nat} (h : 2 ^ 53 < b) :
    2 ^ (bitLen b - 1) ≤ toF64 b ∧ toF64 b ≤ 2 ^ bitLen b := by
  have h54 := bitLen_ge_54 h
  have hs := bitLen_spec b (by omega)
  unfold toF64
  rw [if_neg (by omega)]
  have hden : (0 : Nat) < 2 ^ (bitLen b - 53) := pow_pos (by norm_num) _
  have hpow1 : (2 : Nat) ^ 52 * 2 ^ (bitLen b - 53) = 2 ^ (bitLen b - 1) := by
    rw [← pow_add]
    congr 1
    omega
  have hpow2 : (2 : Nat) ^ 53 * 2 ^ (bitLen b - 53) = 2 ^ bitLen b := by
    rw [← pow_add]
    congr 1
    omega
  have hpow3 : 2 * 2 ^ (bitLen b - 1) = 2 ^ bitLen b := by
    rw [← pow_succ']
    congr 1
    omega
  constructor
  · have hge := roundHEF_ge hden
      (show 2 ^ 52 * 2 ^ (bitLen b - 53) ≤ b by rw [hpow1]; omega)
    calc 2 ^ (bitLen b - 1) = 2 ^ 52 * 2 ^ (bitLen b - 53) := hpow1.symm
      _ ≤ roundHalfEvenFrac b (2 ^ (bitLen b - 53)) * 2 ^ (bitLen b - 53) :=
          Nat.mul_le_mul_right _ hge
  · have hle := roundHEF_le hden
      (show b < 2 ^ 53 * 2 ^ (bitLen b - 53) by rw [hpow2]; omega)
    calc roundHalfEvenFrac b (2 ^ (bitLen b - 53)) * 2 ^ (bitLen b - 53)
        ≤ 2 ^ 53 * 2 ^ (bitLen b - 53) := Nat.mul_le_mul_right _ hle
      _ = 2 ^ bitLen b := hpow2

theorem toF64_pos {b : Nat} (hb : 1 ≤ b) : 1 ≤ toF64 b := by
  by_cases h : b ≤ 2 ^ 53
  · unfold toF64
    rwa [if_pos h]
  · push_neg at h
    have h54 := bitLen_ge_54 h
    have hlow := (toF64_of_gt h).1
    have hp : (1 : Nat) ≤ 2 ^ (bitLen b - 1) := Nat.one_le_two_pow
    omega

theorem toF64_mono {b1 b2 : Nat} (h : b1 ≤ b2) : toF64 b1 ≤ toF64 b2 := by
  by_cases h1 : b1 ≤ 2 ^ 53
  · by_cases h2 : b2 ≤ 2 ^ 53
    · unfold toF64
      rw [if_pos h1, if_pos h2]
      exact h
    · push_neg at h2
      have e1 : toF64 b1 = b1 := by unfold toF64; rw [if_pos h1]
      have hb2 := (toF64_of_gt h2).1
      have h54 := bitLen_ge_54 h2
      have hp : (2 : Nat) ^ 53 ≤ 2 ^ (bitLen b2 - 1) :=
        Nat.pow_le_pow_right (by norm_num) (by omega)
      omega
  · push_neg at h1
    have h2 : 2 ^ 53 < b2 := by omega
    have hbl := bitLen_mono h
    by_cases hE : bitLen b1 = bitLen b2
    · have hden : (0 : Nat) < 2 ^ (bitLen b1 - 53) := pow_pos (by norm_num) _
      unfold toF64
      rw [if_neg (by omega), if_neg (by omega), ← hE]
      exact Nat.mul_le_mul_right _ (roundHEF_mono hden h)
    · have hu := (toF64_of_gt h1).2
      have hl := (toF64_of_gt h2).1
      have hp : (2 : Nat) ^ bitLen b1 ≤ 2 ^ (bitLen b2 - 1) :=
        Nat.pow_le_pow_right (by norm_num) (by omega)
      omega

theorem toF64_dist (b : Nat) :
    (b : Rat) * (1 - 1 / 2 ^ 53) ≤ (toF64 b : Rat) ∧
    (toF64 b : Rat) ≤ (b : Rat) * (1 + 1 / 2 ^ 53) := by
  by_cases h : b ≤ 2 ^ 53
  · unfold toF64
    rw [if_pos h]
    have hb : (0 : Rat) ≤ (b : Rat) := by positivity
    constructor <;> nlinarith [hb]
  · push_neg at h
    have h54 := bitLen_ge_54 h
    have hs := bitLen_spec b (by omega)
    have hden : (0 : Nat) < 2 ^ (bitLen b - 53) := pow_pos (by norm_num) _
    obtain ⟨hb1, hb2⟩ := @roundHEF_bounds (2 ^ (bitLen b - 53)) b hden
    have c1 : (2 : Rat) * b ≤
        2 * (roundHalfEvenFrac b (2 ^ (bitLen b - 53)) : Rat) * 2 ^ (bitLen b - 53) +
          2 ^ (bitLen b - 53) := by exact_mod_cast hb1
    have c2 : 2 * (roundHalfEvenFrac b (2 ^ (bitLen b - 53)) : Rat) * 2 ^ (bitLen b - 53) ≤
        (2 : Rat) * b + 2 ^ (bitLen b - 53) := by exact_mod_cast hb2
    have hkb : ((2 : Rat)) ^ (bitLen b - 53) * 2 ^ 53 ≤ 2 * b := by
      have hN : (2 : Nat) ^ (bitLen b - 53) * 2 ^ 53 ≤ 2 * b := by
        have he : (2 : Nat) ^ (bitLen b - 53) * 2 ^ 53 = 2 ^ bitLen b := by
          rw [← pow_add]
          congr 1
          omega
        omega
      exact_mod_cast hN
    unfold toF64
    rw [if_neg (by omega)]
    have hcast : ((roundHalfEvenFrac b (2 ^ (bitLen b - 53)) * 2 ^ (bitLen b - 53) : Nat) : Rat) =
        (roundHalfEvenFrac b (2 ^ (bitLen b - 53)) : Rat) * 2 ^ (bitLen b - 53) := by
      push_cast
      ring
    rw [hcast]
    constructor
    · nlinarith [c1, hkb]
    · nlinarith [c2, hkb]

theorem tier_den_le {e : Nat} (he : e ≤ 5) : 1000 ^ e ≤ 2 ^ 100 :=
  le_trans (Nat.pow_le_pow_right (by norm_num) he) (by norm_num)

theorem rnd53_q_pos {m d : Nat} (hm : 1 ≤ m) (hd : 0 < d) (hd2 : d ≤ 2 ^ 100) :
    1 ≤ m * 2 ^ 100 / d := by
  rw [Nat.one_le_div_iff hd]
  calc d ≤ 2 ^ 100 := hd2
    _ ≤ m * 2 ^ 100 := Nat.le_mul_of_pos_left _ (by omega)

theorem rnd53_den_le {m d : Nat} (hm : 1 ≤ m) (hd : 0 < d) (hd2 : d ≤ 2 ^ 100) :
    d * 2 ^ rnd53Exp m d ≤ m * 2 ^ 101 := by
  unfold rnd53Exp
  have hq := rnd53_q_pos hm hd hd2
  have hs := bitLen_spec (m * 2 ^ 100 / d) hq
  have h1 : d * 2 ^ bitLen (m * 2 ^ 100 / d) ≤ d * (2 * (m * 2 ^ 100 / d)) :=
    Nat.mul_le_mul_left _ hs.1
  have h2 : (m * 2 ^ 100 / d) * d ≤ m * 2 ^ 100 := Nat.div_mul_le_self _ _
  nlinarith [h1, h2]

theorem rnd53_num_lt {m d : Nat} (hm : 1 ≤ m) (hd : 0 < d) (hd2 : d ≤ 2 ^ 100) :
    m * 2 ^ 100 < d * 2 ^ rnd53Exp m d := by
  unfold rnd53Exp
  have hq := rnd53_q_pos hm hd hd2
  have hs := bitLen_spec (m * 2 ^ 100 / d) hq
  have e1 := Nat.div_add_mod (m * 2 ^ 100) d
  have hmod : (m * 2 ^ 100) % d < d := Nat.mod_lt _ hd
  have h1 : (m * 2 ^ 100 / d) + 1 ≤ 2 ^ bitLen (m * 2 ^ 100 / d) := hs.2
  have h2 : d * ((m * 2 ^ 100 / d) + 1) ≤ d * 2 ^ bitLen (m * 2 ^ 100 / d) :=
    Nat.mul_le_mul_left _ h1
  nlinarith [e1, hmod, h2]

theorem rnd53_nonneg (m d : Nat) : 0 ≤ rnd53 m d := by
  unfold rnd53
  positivity

theorem rnd53_dist {m d : Nat} (hm : 1 ≤ m) (hd : 0 < d) (hd2 : d ≤ 2 ^ 100) :
    ((m : Rat) / d) * (1 - 1 / 2 ^ 52) ≤ rnd53 m d ∧
    rnd53 m d ≤ ((m : Rat) / d) * (1 + 1 / 2 ^ 52) := by
  have hdenN : (0 : Nat) < d * 2 ^ rnd53Exp m d := by positivity
  obtain ⟨hb1, hb2⟩ :=
    @roundHEF_bounds (d * 2 ^ rnd53Exp m d) (m * 2 ^ 100 * 2 ^ 53) hdenN
  have hNdef : rnd53Num m d =
      roundHalfEvenFrac (m * 2 ^ 100 * 2 ^ 53) (d * 2 ^ rnd53Exp m d) := rfl
  rw [← hNdef] at hb1 hb2
  have hA := rnd53_den_le hm hd hd2
  have c1 : (2 : Rat) * (m * 2 ^ 100 * 2 ^ 53) ≤
      2 * (rnd53Num m d : Rat) * ((d : Rat) * 2 ^ rnd53Exp m d) +
        (d : Rat) * 2 ^ rnd53Exp m d := by exact_mod_cast hb1
  have c2 : 2 * (rnd53Num m d : Rat) * ((d : Rat) * 2 ^ rnd53Exp m d) ≤
      (2 : Rat) * (m * 2 ^ 100 * 2 ^ 53) + (d : Rat) * 2 ^ rnd53Exp m d := by
    exact_mod_cast hb2
  have cA : (d : Rat) * 2 ^ rnd53Exp m d ≤ (m : Rat) * 2 ^ 101 := by exact_mod_cast hA
  have hm0 : (0 : Rat) ≤ (m : Rat) := by positivity
  have hd0 : (0 : Rat) < (d : Rat) := by exact_mod_cast hd
  have h153 : (0 : Rat) < (2 : Rat) ^ 153 := by positivity
  unfold rnd53
  constructor
  · rw [div_mul_eq_mul_div, div_le_div_iff₀ hd0 h153]
    nlinarith [c1, cA, hm0]
  · rw [div_mul_eq_mul_div, div_le_div_iff₀ h153 hd0]
    nlinarith [c2, cA, hm0]

theorem rnd53_zero (d : Nat) (_hd : 0 < d) : rnd53 0 d = 0 := by
  have hE : rnd53Exp 0 d = 0 := by
    unfold rnd53Exp
    norm_num
    rfl
  have hN : rnd53Num 0 d = 0 := by
    unfold rnd53Num
    rw [hE]
    unfold roundHalfEvenFrac
    rw [Nat.zero_mul]
    norm_num [Nat.zero_div, Nat.zero_mod]
  unfold rnd53
  rw [hN]
  norm_num

theorem rnd53_mono {d : Nat} (hd : 0 < d) (hd2 : d ≤ 2 ^ 100) {m1 m2 : Nat}
    (h : m1 ≤ m2) : rnd53 m1 d ≤ rnd53 m2 d := by
  by_cases hm1 : m1 = 0
  · subst hm1
    rw [rnd53_zero d hd]
    exact rnd53_nonneg m2 d
  · have hm1' : 1 ≤ m1 := by omega
    have hm2' : 1 ≤ m2 := by omega
    have hEle : rnd53Exp m1 d ≤ rnd53Exp m2 d := by
      unfold rnd53Exp
      exact bitLen_mono (Nat.div_le_div_right (Nat.mul_le_mul_right _ h))
    by_cases hE : rnd53Exp m1 d = rnd53Exp m2 d
    · have hdenN : (0 : Nat) < d * 2 ^ rnd53Exp m2 d := by positivity
      have hmono : rnd53Num m1 d ≤ rnd53Num m2 d := by
        unfold rnd53Num
        rw [hE]
        exact roundHEF_mono hdenN
          (Nat.mul_le_mul_right _ (Nat.mul_le_mul_right _ h))
      unfold rnd53
      rw [hE]
      have hc : (rnd53Num m1 d : Rat) ≤ rnd53Num m2 d := by exact_mod_cast hmono
      have h153 : (0 : Rat) < (2 : Rat) ^ 153 := by positivity
      have hp : (0 : Rat) ≤ (2 : Rat) ^ rnd53Exp m2 d := by positivity
      rw [div_le_div_iff₀ h153 h153]
      nlinarith [hc, hp]
    · have hElt : rnd53Exp m1 d < rnd53Exp m2 d := by omega
      have hN1 : rnd53Num m1 d ≤ 2 ^ 53 := by
        unfold rnd53Num
        apply roundHEF_le (by positivity)
        calc m1 * 2 ^ 100 * 2 ^ 53 < (d * 2 ^ rnd53Exp m1 d) * 2 ^ 53 := by
              have := rnd53_num_lt hm1' hd hd2
              exact Nat.mul_lt_mul_of_lt_of_le this (le_refl _) (by positivity)
          _ = 2 ^ 53 * (d * 2 ^ rnd53Exp m1 d) := by ring
      have hN2 : 2 ^ 52 ≤ rnd53Num m2 d := by
        unfold rnd53Num
        apply roundHEF_ge (by positivity)
        calc 2 ^ 52 * (d * 2 ^ rnd53Exp m2 d) ≤ 2 ^ 52 * (m2 * 2 ^ 101) :=
              Nat.mul_le_mul_left _ (rnd53_den_le hm2' hd hd2)
          _ = m2 * 2 ^ 100 * 2 ^ 53 := by ring
      have hq1 : (rnd53Num m1 d : Rat) ≤ 2 ^ 53 := by exact_mod_cast hN1
      have hq2 : (2 : Rat) ^ 52 ≤ (rnd53Num m2 d : Rat) := by exact_mod_cast hN2
      have hEq : (2 : Rat) ^ rnd53Exp m1 d * 2 ≤ 2 ^ rnd53Exp m2 d := by
        have hN : (2 : Nat) ^ (rnd53Exp m1 d + 1) ≤ 2 ^ rnd53Exp m2 d :=
          Nat.pow_le_pow_right (by norm_num) (by omega)
        have : ((2 : Nat) ^ (rnd53Exp m1 d + 1) : Rat) =
            (2 : Rat) ^ rnd53Exp m1 d * 2 := by
          push_cast
          ring
        rw [← this]
        exact_mod_cast hN
      unfold rnd53
      have h153 : (0 : Rat) < (2 : Rat) ^ 153 := by positivity
      have hp1 : (0 : Rat) ≤ (2 : Rat) ^ rnd53Exp m1 d := by positivity
      have hp2 : (0 : Rat) ≤ (2 : Rat) ^ rnd53Exp m2 d := by positivity
      have hnum : (rnd53Num m1 d : Rat) * 2 ^ rnd53Exp m1 d ≤
          (rnd53Num m2 d : Rat) * 2 ^ rnd53Exp m2 d := by
        calc (rnd53Num m1 d : Rat) * 2 ^ rnd53Exp m1 d
            ≤ 2 ^ 53 * 2 ^ rnd53Exp m1 d := mul_le_mul_of_nonneg_right hq1 hp1
          _ = 2 ^ 52 * (2 ^ rnd53Exp m1 d * 2) := by ring
          _ ≤ 2 ^ 52 * 2 ^ rnd53Exp m2 d :=
              mul_le_mul_of_nonneg_left hEq (by positivity)
          _ ≤ (rnd53Num m2 d : Rat) * 2 ^ rnd53Exp m2 d :=
              mul_le_mul_of_nonneg_right hq2 hp2
      rw [div_le_div_iff₀ h153 h153]
      exact mul_le_mul_of_nonneg_right hnum h153.le

theorem vF_mono {e : Nat} (he : e ≤ 5) {b1 b2 : Nat} (h : b1 ≤ b2) :
    vF b1 e ≤ vF b2 e :=
  rnd53_mono (pow_pos (by norm_num) _) (tier_den_le he) (toF64_mono h)

theorem vF_bounds {b e : Nat} (hb : 1 ≤ b) (he : e ≤ 5) :
    ((b : Rat) / 1000 ^ e) * (1 - 1 / 2 ^ 51) ≤ vF b e ∧
    vF b e ≤ ((b : Rat) / 1000 ^ e) * (1 + 1 / 2 ^ 51) := by
  have hdN : (0 : Nat) < 1000 ^ e := pow_pos (by norm_num) _
  have hD : (0 : Rat) < (1000 : Rat) ^ e := by positivity
  obtain ⟨t1, t2⟩ := toF64_dist b
  obtain ⟨r1, r2⟩ := rnd53_dist (toF64_pos hb) hdN (tier_den_le he)
  have hcast : (((1000 ^ e : Nat)) : Rat) = (1000 : Rat) ^ e := by
    push_cast
    ring
  rw [hcast] at r1 r2
  have hV : vF b e = rnd53 (toF64 b) (1000 ^ e) := rfl
  rw [← hV] at r1 r2
  have hb0 : (0 : Rat) ≤ (b : Rat) := by positivity
  rw [div_mul_eq_mul_div, div_le_iff₀ hD] at r1
  rw [div_mul_eq_mul_div, le_div_iff₀ hD] at r2
  constructor
  · rw [div_mul_eq_mul_div, div_le_iff₀ hD]
    nlinarith [r1, t1, hb0]
  · rw [div_mul_eq_mul_div, le_div_iff₀ hD]
    nlinarith [r2, t2, hb0]

theorem printed_cross {v1 v2 : Rat} (h : v1 ≤ v2) :
    (roundHE (v1 * 10 ^ places64 v1) : Rat) / 10 ^ places64 v1 ≤
      (roundHE (v2 * 10 ^ places64 v2) : Rat) / 10 ^ places64 v2 := by
  unfold places64
  by_cases h1 : (100 : Rat) ≤ v1
  · have h2 : (100 : Rat) ≤ v2 := le_trans h1 h
    rw [if_pos h1, if_pos h2]
    norm_num
    exact_mod_cast roundHE_mono h
  · rw [if_neg h1]
    push_neg at h1
    by_cases h1b : (10 : Rat) ≤ v1
    · rw [if_pos h1b]
      by_cases h2 : (100 : Rat) ≤ v2
      · rw [if_pos h2]
        have r1 : roundHE (v1 * 10 ^ 1) ≤ (1000 : Int) :=
          roundHE_le (by push_cast; nlinarith)
        have r2 : (100 : Int) ≤ roundHE (v2 * 10 ^ 0) :=
          roundHE_ge (by push_cast; nlinarith)
        have r1c : (roundHE (v1 * 10 ^ 1) : Rat) ≤ 1000 := by exact_mod_cast r1
        have r2c : (100 : Rat) ≤ (roundHE (v2 * 10 ^ 0) : Rat) := by exact_mod_cast r2
        rw [div_le_div_iff₀ (by norm_num) (by norm_num)]
        nlinarith [r1c, r2c]
      · rw [if_neg h2]
        push_neg at h2
        have h2b : (10 : Rat) ≤ v2 := le_trans h1b h
        rw [if_pos h2b]
        have hm := roundHE_mono (show v1 * 10 ^ 1 ≤ v2 * 10 ^ 1 by nlinarith)
        have hmc : (roundHE (v1 * 10 ^ 1) : Rat) ≤ roundHE (v2 * 10 ^ 1) := by
          exact_mod_cast hm
        rw [div_le_div_iff₀ (by norm_num) (by norm_num)]
        nlinarith [hmc]
    · rw [if_neg h1b]
      push_neg at h1b
      by_cases h2 : (100 : Rat) ≤ v2
      · rw [if_pos h2]
        have r1 : roundHE (v1 * 10 ^ 2) ≤ (1000 : Int) :=
          roundHE_le (by push_cast; nlinarith)
        have r2 : (100 : Int) ≤ roundHE (v2 * 10 ^ 0) :=
          roundHE_ge (by push_cast; nlinarith)
        have r1c : (roundHE (v1 * 10 ^ 2) : Rat) ≤ 1000 := by exact_mod_cast r1
        have r2c : (100 : Rat) ≤ (roundHE (v2 * 10 ^ 0) : Rat) := by exact_mod_cast r2
        rw [div_le_div_iff₀ (by norm_num) (by norm_num)]
        nlinarith [r1c, r2c]
      · rw [if_neg h2]
        push_neg at h2
        by_cases h2b : (10 : Rat) ≤ v2
        · rw [if_pos h2b]
          have r1 : roundHE (v1 * 10 ^ 2) ≤ (1000 : Int) :=
            roundHE_le (by push_cast; nlinarith)
          have r2 : (100 : Int) ≤ roundHE (v2 * 10 ^ 1) :=
            roundHE_ge (by push_cast; nlinarith)
          have r1c : (roundHE (v1 * 10 ^ 2) : Rat) ≤ 1000 := by exact_mod_cast r1
          have r2c : (100 : Rat) ≤ (roundHE (v2 * 10 ^ 1) : Rat) := by exact_mod_cast r2
          rw [div_le_div_iff₀ (by norm_num) (by norm_num)]
          nlinarith [r1c, r2c]
        · rw [if_neg h2b]
          have hm := roundHE_mono (show v1 * 10 ^ 2 ≤ v2 * 10 ^ 2 by nlinarith)
          have hmc : (roundHE (v1 * 10 ^ 2) : Rat) ≤ roundHE (v2 * 10 ^ 2) := by
            exact_mod_cast hm
          rw [div_le_div_iff₀ (by norm_num) (by norm_num)]
          nlinarith [hmc]

theorem tier5_robust (x y : Rat) (hx1 : 16 ≤ x) (_hx2 : x ≤ 18)
    (hy1 : 29 / 10 ≤ y) (hy2 : y ≤ 31 / 10) :
    min (⌊x / y⌋.toNat) 5 = 5 := by
  have hy0 : (0 : Rat) < y := by linarith
  have h5 : (5 : Rat) ≤ x / y := by
    rw [le_div_iff₀ hy0]
    nlinarith
  have hf : (5 : Int) ≤ ⌊x / y⌋ := Int.le_floor.mpr (by exact_mod_cast h5)
  omega


theorem floorLog1000Aux_spec :
    ∀ fuel n : Nat, 1 ≤ n → n ≤ fuel →
      1000 ^ floorLog1000Aux fuel n ≤ n ∧ n < 1000 ^ (floorLog1000Aux fuel n + 1) := by
  intro fuel
  induction fuel with
  | zero => intro n h1 h2; omega
  | succ fuel ih =>
    intro n h1 h2
    simp only [floorLog1000Aux]
    by_cases hlt : n < 1000
    · rw [if_pos hlt]
      constructor
      · simpa using h1
      · simpa using hlt
    · rw [if_neg hlt]
      have hn1000 : 1000 ≤ n := Nat.le_of_not_lt hlt
      have hd1 : 1 ≤ n / 1000 := (Nat.one_le_div_iff (by norm_num)).mpr hn1000
      have hdlt : n / 1000 < n := Nat.div_lt_self (by omega) (by norm_num)
      have hdf : n / 1000 ≤ fuel := by omega
      obtain ⟨hA, hB⟩ := ih (n / 1000) hd1 hdf
      have hmod : n % 1000 < 1000 := Nat.mod_lt _ (by norm_num)
      have hdm : 1000 * (n / 1000) + n % 1000 = n := Nat.div_add_mod n 1000
      constructor
      · have h3 : 1000 ^ (floorLog1000Aux fuel (n / 1000) + 1) =
            1000 * 1000 ^ floorLog1000Aux fuel (n / 1000) := by ring
        rw [h3]
        have h4 : 1000 * 1000 ^ floorLog1000Aux fuel (n / 1000) ≤ 1000 * (n / 1000) :=
          Nat.mul_le_mul_left 1000 hA
        omega
      · have h3 : 1000 ^ (floorLog1000Aux fuel (n / 1000) + 1 + 1) =
            1000 * 1000 ^ (floorLog1000Aux fuel (n / 1000) + 1) := by ring
        rw [h3]
        have h4 : 1000 * (n / 1000 + 1) ≤
            1000 * 1000 ^ (floorLog1000Aux fuel (n / 1000) + 1) :=
          Nat.mul_le_mul_left 1000 hB
        omega

theorem floorLog1000_spec (b : Nat) (hb : 1 ≤ b) :
    1000 ^ floorLog1000 b ≤ b ∧ b < 1000 ^ (floorLog1000 b + 1) :=
  floorLog1000Aux_spec b b hb le_rfl

theorem floorLog1000_lt_1000 {b : Nat} (hb : 1 ≤ b) (h : b < 1000) :
    floorLog1000 b = 0 := by
  have := floorLog1000_spec b hb
  by_contra hc
  have h1 : 1 ≤ floorLog1000 b := Nat.one_le_iff_ne_zero.mpr hc
  have h2 : 1000 ^ 1 ≤ 1000 ^ floorLog1000 b :=
    Nat.pow_le_pow_right (by norm_num) h1
  simp at h2
  omega

theorem zeroPad_one_digit :
    ∀ d : Nat, d < 10 →
      (zeroPad 1 d).data.length = 1 ∧
        ((zeroPad 1 d).data.headD ' ').isDigit = true := by
  decide

-- ## The claims

/-- C1: the claim says that for every completed sampling cycle the program
writes the six line formatted report (the Display rendering, with the metrics
right aligned under a fixed width label column) to standard output.  The code
instead prints the derived Debug representation of FormattedMetrics (a single
line struct dump), because print_once formats with the :? specifier; the
Display implementation producing the report is never invoked.  Evaluated at a
concrete snapshot: the text written is the Debug dump, and it differs from the
Display report. -/
theorem C1_print_once_writes_debug_not_display :
    print_once_output sampleSnapshot =
      "FormattedMetrics \x7b cpu_usage: \"12.5%\", memory_used: \"500 B\", memory_total: \"1.00 KB\", memory_usage_percent: \"50.0%\", disk_read: \"0 B\", disk_write: \"0 B\", net_rx: \"0 B\", net_tx: \"0 B\" \x7d\n" ∧
    print_once_output sampleSnapshot ≠
      FormattedMetrics.displayRepr (MetricsSnapshot.format sampleSnapshot) := by
  have hq : ((500 : Nat) : Rat) / ((1000 : Nat) : Rat) * 100 = 50 := by norm_num
  have h : memPercentVal 500 1000 = FloatVal.finite 50 := by
    unfold memPercentVal
    rw [if_neg (by norm_num), hq]
  have hfmt : MetricsSnapshot.format sampleSnapshot =
      ⟨"12.5%", "500 B", "1.00 KB", "50.0%", "0 B", "0 B", "0 B", "0 B"⟩ := by
    simp only [MetricsSnapshot.format, sampleSnapshot, h]
    decide
  constructor
  · simp only [print_once_output, print_once_trace, collect_metrics, hfmt]
    decide
  · simp only [print_once_output, print_once_trace, collect_metrics, hfmt]
    decide

/-- C2 counterexample: the claim says the live and log flags never alter
behavior and that a one shot print always runs.  At a concrete input, a run
with the live flag set prints nothing, while the run with neither flag set
performs the one shot print: the flag does alter behavior and the one shot
print does not always run. -/
theorem C2_flags_alter_behavior_cex :
    run zeroTotalSnapshot { live := true, log := false, interval := 1 } = none ∧
    run zeroTotalSnapshot { live := false, log := false, interval := 1 } ≠
      run zeroTotalSnapshot { live := true, log := false, interval := 1 } := by
  constructor
  · rfl
  · intro h
    simp [run, print_once_trace] at h

/-- C2 amended: the one shot sample and print runs exactly when neither the
live flag nor the log flag is set; when either flag is given the program
samples nothing and writes nothing. -/
theorem C2_one_shot_iff_no_flags (env : MetricsSnapshot) (args : CliArgs) :
    run env args = some (print_once_trace env) ↔
      (args.live = false ∧ args.log = false) := by
  unfold run
  by_cases h1 : args.live <;> by_cases h2 : args.log <;> simp [h1, h2]

/-- C3: the claim (and the boundary requirement of the spec) says that a
snapshot with memory_total_bytes = 0 formats without a numeric exception and
with a defined sentinel string such as N/A in the memory percentage field.
The code does not raise an exception, but the field it produces is text derived
from the non finite result of the division by zero: NaN% when the used counter
is also zero, inf% otherwise — not a sentinel. -/
theorem C3_zero_total_memory_nan_text :
    (MetricsSnapshot.format zeroTotalSnapshot).memory_usage_percent = "NaN%" ∧
    (MetricsSnapshot.format zeroTotalUsedSnapshot).memory_usage_percent = "inf%" ∧
    (MetricsSnapshot.format zeroTotalSnapshot).memory_usage_percent ≠ "N/A" := by
  refine ⟨by decide, by decide, by decide⟩

/-- C8: two runs of the program that differ only in the interval argument have
identical observable behavior — the same printed text and the same blocking
wait — and the wait of a sampling cycle is the hardcoded 5000 milliseconds,
independent of the interval. -/
theorem C8_interval_no_influence (env : MetricsSnapshot) (live log : Bool)
    (i1 i2 : Nat) :
    run env { live := live, log := log, interval := i1 } =
      run env { live := live, log := log, interval := i2 } ∧
    (collect_metrics env).1 = 5000 :=
  ⟨rfl, rfl⟩

/-- C9: for every byte count the unit tier index computed by format_bytes is
clamped to at most 5, hence the lookup into the six element unit table is in
bounds and format_bytes returns a string without panicking (the embedding
models the panic of an out of bounds lookup by a none result, which never
occurs).  The quantifier ranges over all of Nat, which contains every unsigned
64 bit value including the maximum. -/
theorem C9_format_bytes_total (b : Nat) :
    byteTier b ≤ 5 ∧ byteTier b < UNITS.length ∧
    (format_bytes? b).isSome = true := by
  have h5 : byteTier b ≤ 5 := by
    rw [byteTier_eq]
    exact Nat.min_le_right _ _
  refine ⟨h5, by simpa [UNITS] using Nat.lt_succ_of_le h5, ?_⟩
  unfold format_bytes?
  by_cases hb : b = 0
  · rw [if_pos hb]
    rfl
  · rw [if_neg hb, UNITS_get?_eq _ h5]
    rfl

/-- C4 counterexample: the claim states the tier, the scaled value and the
precision thresholds in exact arithmetic, but the program computes them on f64
approximations.  At b = 99999999999999999 (one below 10 ^ 17) the conversion
bytes as f64 rounds up to exactly 10 ^ 17 (the doubles near 10 ^ 17 are 16
apart), the exact tier and the computed tier are both 5 (see tier5_robust: any
f64 log10 within one of the exact logarithms yields 5 after the clamp), and
the f64 scaled value is exactly 100, so the code takes the zero-decimals
branch and prints 100 PB — while the exact scaled value is below 100, for
which the claim prescribes one decimal place, rendering 100.0 PB. -/
theorem C4_f64_precision_cex :
    byteTier 99999999999999999 = 5 ∧
    toF64 99999999999999999 = 10 ^ 17 ∧
    vF 99999999999999999 5 = 100 ∧
    format_bytes_f64 99999999999999999 5 = "100 PB" ∧
    (10 : Rat) ≤ (99999999999999999 : Rat) / 1000 ^ 5 ∧
    (99999999999999999 : Rat) / 1000 ^ 5 < 100 ∧
    renderFixed 99999999999999999 (1000 ^ 5) 1 ++ " " ++ "PB" = "100.0 PB" ∧
    format_bytes_f64 99999999999999999 5 ≠ "100.0 PB" := by
  have htf : toF64 99999999999999999 = 10 ^ 17 := by decide
  have hexp : rnd53Exp (10 ^ 17) (1000 ^ 5) = 107 := by decide
  have hnum : rnd53Num (10 ^ 17) (1000 ^ 5) = 7036874417766400 := by decide
  have hv : vF 99999999999999999 5 = 100 := by
    show rnd53 (toF64 99999999999999999) (1000 ^ 5) = 100
    rw [htf]
    unfold rnd53
    rw [hexp, hnum]
    norm_num
  have hfmt : format_bytes_f64 99999999999999999 5 = "100 PB" := by
    unfold format_bytes_f64 format_bytes_f64?
    rw [if_neg (by decide)]
    have hu : UNITS.get? 5 = some "PB" := rfl
    rw [hu, hv]
    have hp : places64 (100 : Rat) = 0 := by norm_num [places64]
    rw [hp]
    unfold renderFixedRat
    rw [if_pos rfl]
    have hr : roundHE ((100 : Rat) * 10 ^ 0) = 100 := by
      have h100 : ((100 : Rat) * 10 ^ 0) = ((100 : Int) : Rat) := by norm_num
      rw [h100]
      unfold roundHE
      rw [Int.floor_intCast]
      norm_num
    rw [hr]
    rfl
  refine ⟨by decide, htf, hv, hfmt, by norm_num, by norm_num, by decide, ?_⟩
  rw [hfmt]
  decide

/-- C4 amended: for b = 0 the output is the literal 0 B; for nonzero b the
tier, the scaled value and the precision thresholds are computed on f64
approximations rather than exact values: the tier is the clamped floor of the
f64 log10 quotient (the largest exact power of 1000 tier except where that
quotient lies within rounding distance of an integer, e.g. at 10 ^ 15 - 1),
the scaled value the thresholds and the rendering see is the double nearest
fl(b) / 1000 ^ tier — within relative error 2 ^ (-51) of the exact
b / 1000 ^ tier — so tier and decimal places can differ from the exact
description only at such representation boundaries.  The theorem proves the
zero case and the two sided relative error bound of the f64 scaled value. -/
theorem C4_f64_scaled_value (b e : Nat) :
    format_bytes_f64 0 e = "0 B" ∧
    (1 ≤ b → e ≤ 5 →
      ((b : Rat) / 1000 ^ e) * (1 - 1 / 2 ^ 51) ≤ vF b e ∧
      vF b e ≤ ((b : Rat) / 1000 ^ e) * (1 + 1 / 2 ^ 51)) := by
  refine ⟨rfl, ?_⟩
  intro hb he
  exact vF_bounds hb he

/-- C4 witness: the amended theorem applied at b = 1500, e = 1. -/
theorem C4_f64_scaled_value_witness :
    format_bytes_f64 0 1 = "0 B" ∧
    ((1500 : Rat) / 1000 ^ 1) * (1 - 1 / 2 ^ 51) ≤ vF 1500 1 ∧
    vF 1500 1 ≤ ((1500 : Rat) / 1000 ^ 1) * (1 + 1 / 2 ^ 51) :=
  ⟨(C4_f64_scaled_value 1500 1).1,
   ((C4_f64_scaled_value 1500 1).2 (by decide) (by decide)).1,
   ((C4_f64_scaled_value 1500 1).2 (by decide) (by decide)).2⟩

/-- C5 counterexample: the claim says every b below 1000 is rendered with unit
B and a numeric part equal to b with no fractional digits.  At b = 50 the code
renders 50.0 B — the numeric part carries a fractional digit — which differs
from the digits of 50 followed by the unit. -/
theorem C5_small_bytes_fractional_digits_cex :
    format_bytes 50 = "50.0 B" ∧ format_bytes 50 ≠ Nat.repr 50 ++ " B" := by
  constructor
  · decide
  · decide

/-- C5 amended: for every b below 1000 the unit tier is 0 (unit B) and the
numeric part of the output denotes exactly the value b (no fractional scaling
occurs), but the rendering applies the general precision policy, so inputs
below 100 carry one or two fractional zero digits. -/
theorem C5_small_bytes_unit_and_value (b : Nat) (h : b < 1000) :
    byteTier b = 0 ∧ renderedValue b = (b : Rat) ∧
    (b ≠ 0 → format_bytes b = renderFixed b 1 (decimalPlaces b 1) ++ " " ++ "B") := by
  have ht : byteTier b = 0 := by
    rw [byteTier_eq]
    by_cases hb : b = 0
    · subst hb; rfl
    · rw [floorLog1000_lt_1000 (Nat.one_le_iff_ne_zero.mpr hb) h]
      simp
  refine ⟨ht, ?_, ?_⟩
  · unfold renderedValue
    rw [ht]
    norm_num [roundHEF_den_one]
  · intro hb
    unfold format_bytes format_bytes?
    rw [if_neg hb, ht]
    rfl

/-- C5 witness: the amended theorem applied at the concrete input 50. -/
theorem C5_small_bytes_unit_and_value_witness :
    (50 : Nat) < 1000 ∧ byteTier 50 = 0 ∧ renderedValue 50 = (50 : Rat) :=
  ⟨by decide, (C5_small_bytes_unit_and_value 50 (by decide)).1,
   (C5_small_bytes_unit_and_value 50 (by decide)).2.1⟩

/-- C6 counterexample: the claim quantifies over every f32 input, but at the
f32 value NaN the formatter renders NaN%, which contains no decimal digit
before the percent sign. -/
theorem C6_format_percent_nan_cex :
    format_percent FloatVal.nan = "NaN%" ∧
    oneDecimalDigitPercent (format_percent FloatVal.nan) = false := by
  constructor
  · rfl
  · rfl

/-- C6 amended: for every finite f32 input the rendering of format_percent is
a decimal point, exactly one decimal digit, and a percent sign at the end
(the special values NaN and the infinities are the only exceptions). -/
theorem C6_format_percent_finite_one_decimal (q : Rat) :
    oneDecimalDigitPercent (format_percent (FloatVal.finite q)) = true := by
  have hmod : roundHalfEvenFrac (q.num.natAbs * 10 ^ 1) q.den % 10 ^ 1 < 10 := by
    have h10 : (0 : Nat) < 10 ^ 1 := by norm_num
    simpa using Nat.mod_lt (roundHalfEvenFrac (q.num.natAbs * 10 ^ 1) q.den) h10
  obtain ⟨hlen, hdig⟩ :=
    zeroPad_one_digit (roundHalfEvenFrac (q.num.natAbs * 10 ^ 1) q.den % 10 ^ 1) hmod
  obtain ⟨c, hc⟩ := List.length_eq_one.mp hlen
  rw [hc] at hdig
  simp only [List.headD_cons] at hdig
  norm_num at hc
  simp only [oneDecimalDigitPercent, format_percent, renderFloat1, renderFixed,
    String.data_append]
  norm_num [hc, hdig]

/-- C7: for byte counts b1 < b2 that format_bytes places in the same unit
tier, the numeric part printed for b1 denotes a rational at most the one
printed for b2 — proved under IEEE f64 semantics for every unit tier e at most
5.  The tier the source computes from f64 log10 is implementation defined, so
the theorem quantifies over e: whatever tier the program assigns to both
inputs, the printed values compare monotonically (the conversion, the division
and the decimal rounding are all monotone, and at a precision band boundary
the prefixes on either side are separated by the value 10 or 100 itself).
This covers every same printed unit pair, including those whose exact tiers
differ, such as 10 ^ 15 - 1 and 10 ^ 15 when log10 assigns both to PB. -/
theorem C7_f64_printed_mono (e b1 b2 : Nat) (he : e ≤ 5) (hlt : b1 < b2) :
    printedValue b1 e ≤ printedValue b2 e := by
  have hv := vF_mono he (le_of_lt hlt)
  unfold printedValue
  exact printed_cross hv

/-- C7 witness: the theorem applied at e = 1 and the inputs 1500 and 2500. -/
theorem C7_f64_printed_mono_witness :
    (1 : Nat) ≤ 5 ∧ (1500 : Nat) < 2500 ∧ printedValue 1500 1 ≤ printedValue 2500 1 :=
  ⟨by decide, by decide, C7_f64_printed_mono 1 1500 2500 (by decide) (by decide)⟩

/-- C10: a nonzero input whose scaled value rounds up to 1000 in its tier is
rendered with the numeric part 1000 and the lower unit instead of being
promoted to the next tier: at b = 999999999 (scaled value 999.999999 MB) the
output is 1000 MB, not 1.00 GB. -/
theorem C10_no_tier_promotion_at_rounding :
    format_bytes 999999999 = "1000 MB" ∧ format_bytes 999999999 ≠ "1.00 GB" := by
  constructor
  · decide
  · decide

end SystemMonitor
